import Mathlib

/-!
Shallow embedding of the status-evaluation and alert-escalation engine of
app/cabotapp/models.py, together with theorems checking the natural-language
specification against it.

Conventions used throughout:
* times (datetimes) are modelled as integers counting seconds, so that the
  cooldown windows timedelta(minutes=120) and timedelta(minutes=10) become
  7200 and 600 seconds;
* nullable fields become Option;
* Python code that can raise an uncaught exception is modelled in the
  Except monad, with the exception message as the error value;
* model fields keep the source names where Lean allows it.
-/

set_option linter.unusedVariables false

namespace Cabot

/-- Overall service status values (Service.PASSING_STATUS etc.). -/
inductive ServiceStatus
  | passing
  | warning
  | error
  | critical
  deriving DecidableEq, Repr, BEq

/-- Calculated per-check status values (Service.CALCULATED_*_STATUS). -/
inductive CalcStatus
  | passing
  | intermittent
  | failing
  deriving DecidableEq, Repr, BEq

/-- A check importance, one of the three choices of Service.IMPORTANCES. -/
inductive Importance
  | warning
  | error
  | critical
  deriving DecidableEq, Repr, BEq

/-- The ServiceStatus value named by an importance choice. -/
def importanceStatus : Importance → ServiceStatus
  | .warning => .warning
  | .error => .error
  | .critical => .critical

/-- One StatusCheckResult row, restricted to the fields the embedded
functions read (the success flag). -/
structure StatusCheckResult where
  succeeded : Bool
  deriving DecidableEq, Repr

/-- serialize_recent_results: maps each result to the string 1 or -1,
reverses and joins with commas; empty history gives the empty string. -/
def serialize_recent_results (recent_results : List StatusCheckResult) : String :=
  if recent_results.isEmpty then ""
  else
    String.intercalate ","
      ((recent_results.map (fun r => if r.succeeded then "1" else "-1")).reverse)

/-- calculate_debounced_passing: True (passing) on an empty history,
otherwise True iff some result among the first debounce+1 entries of the
most-recent-first history succeeded. -/
def calculate_debounced_passing (recent_results : List StatusCheckResult)
    (debounce : Nat) : Bool :=
  if recent_results.isEmpty then true
  else (recent_results.take (debounce + 1)).any (·.succeeded)

/-- StatusCheck.recent_results: the query slice [:10] over results ordered
by completion time descending; the argument is the full ordered history. -/
def recent_results (history : List StatusCheckResult) : List StatusCheckResult :=
  history.take 10

/-- The calculated_status persisted by StatusCheck.save: the debounce
evaluation over recent_results, mapped to passing / failing. -/
def savedCalculatedStatus (history : List StatusCheckResult) (debounce : Nat) :
    CalcStatus :=
  if calculate_debounced_passing (recent_results history) debounce then
    CalcStatus.passing
  else
    CalcStatus.failing

/-- The cached_health string persisted by StatusCheck.save. -/
def savedCachedHealth (history : List StatusCheckResult) : String :=
  serialize_recent_results (recent_results history)

/-- C2: the debounce evaluator on a most-recent-first history h and debounce
d returns passing (true) iff h is empty or some result among the first d+1
succeeded, and failing (false) iff h is nonempty and all of the most recent
d+1 results are failures. -/
theorem C2_debounce_characterisation (history : List StatusCheckResult) (d : Nat) :
    (calculate_debounced_passing history d = true ↔
      history = [] ∨ ∃ r ∈ history.take (d + 1), r.succeeded = true)
    ∧ (calculate_debounced_passing history d = false ↔
      history ≠ [] ∧ ∀ r ∈ history.take (d + 1), r.succeeded = false) := by
  constructor
  · unfold calculate_debounced_passing
    rcases history with _ | ⟨a, t⟩
    · simp
    · simp [List.any_eq_true]
  · unfold calculate_debounced_passing
    rcases history with _ | ⟨a, t⟩
    · simp
    · simp [List.any_eq_false]

/-- C10: the persisted calculated_status and cached summary depend only on
the first 10 entries of the history; every debounce d at least 9 gives the
same calculated_status as debounce 9; and when the 10 most recent results
all failed the persisted status is failing whatever the debounce is. -/
theorem C10_truncated_window (h1 h2 : List StatusCheckResult) (d : Nat) :
    (h1.take 10 = h2.take 10 →
      savedCalculatedStatus h1 d = savedCalculatedStatus h2 d ∧
      savedCachedHealth h1 = savedCachedHealth h2)
    ∧ (9 ≤ d → savedCalculatedStatus h1 d = savedCalculatedStatus h1 9)
    ∧ ((h1.take 10).length = 10 →
        (∀ r ∈ h1.take 10, r.succeeded = false) →
        savedCalculatedStatus h1 d = CalcStatus.failing) := by
  refine ⟨fun hagree => ?_, fun hd => ?_, fun hlen hfail => ?_⟩
  · unfold savedCalculatedStatus savedCachedHealth recent_results
    rw [hagree]
    exact ⟨rfl, rfl⟩
  · unfold savedCalculatedStatus calculate_debounced_passing recent_results
    rw [List.take_take, List.take_take]
    have h10 : min (d + 1) 10 = 10 := by omega
    rw [h10]
    norm_num
  · unfold savedCalculatedStatus calculate_debounced_passing recent_results
    have hne : (h1.take 10).isEmpty = false := by
      rcases h1 with _ | ⟨a, t⟩
      · simp at hlen
      · simp [List.isEmpty]
    rw [hne]
    simp only [Bool.false_eq_true, if_false]
    have hany : ((h1.take 10).take (d + 1)).any (·.succeeded) = false := by
      rw [List.any_eq_false]
      intro r hr
      have := hfail r (List.mem_of_mem_take hr)
      simp [this]
    rw [hany]
    simp

/-- C10 witness: a concrete history of ten failures is failing at debounce
50, and two histories agreeing on their first ten entries persist the same
status. -/
theorem C10_truncated_window_witness :
    savedCalculatedStatus (List.replicate 12 ⟨false⟩) 50 = CalcStatus.failing ∧
    savedCalculatedStatus (List.replicate 12 ⟨false⟩) 50 =
      savedCalculatedStatus (List.replicate 12 ⟨false⟩) 9 := by
  refine ⟨?_, ?_⟩
  · exact (C10_truncated_window (List.replicate 12 ⟨false⟩) [] 50).2.2
      (by decide) (by decide)
  · exact (C10_truncated_window (List.replicate 12 ⟨false⟩) [] 50).2.1 (by decide)

/-- Python %-formatting restricted to %s conversions, over the format
string's characters: each %s consumes one argument in order; hitting the
end of the format with arguments left over raises the TypeError
"not all arguments converted during string formatting" (in particular a
format string with no specifier always raises when applied), and a
specifier with no argument left raises "not enough arguments". -/
def pyFormatChars : List Char → List String → Except String String
  | [], [] => Except.ok ""
  | [], _ :: _ =>
    Except.error "TypeError: not all arguments converted during string formatting"
  | '%' :: 's' :: rest, a :: args =>
    match pyFormatChars rest args with
    | Except.ok t => Except.ok (a ++ t)
    | Except.error e => Except.error e
  | '%' :: 's' :: rest, [] =>
    Except.error "TypeError: not enough arguments for format string"
  | ch :: rest, args =>
    match pyFormatChars rest args with
    | Except.ok t => Except.ok (String.singleton ch ++ t)
    | Except.error e => Except.error e

/-- The result of a Python format-string application, Except-valued to
model the TypeError on arity mismatch. -/
def pyFormat (fmt : String) (args : List String) : Except String String :=
  pyFormatChars fmt.toList args

/-- The fields of the Jenkins job status dictionary returned by
get_job_status. -/
structure JenkinsStatus where
  active : Bool
  succeeded : Bool
  blocked_build_time : Option Int
  deriving DecidableEq, Repr

/-- The behaviour of the Jenkins backend call in JenkinsStatusCheck.run:
a normal status, a requests.HTTPError (job not found), or any other
exception. -/
inductive JenkinsResponse
  | ok (status : JenkinsStatus)
  | httpError
  | otherError
  deriving DecidableEq, Repr

/-- The JenkinsStatusCheck configuration fields read by run. -/
structure JenkinsCheck where
  name : String
  max_queued_build_time : Option Int
  deriving DecidableEq, Repr

/-- The StatusCheckResult fields written by JenkinsStatusCheck.run. -/
structure JenkinsRunResult where
  succeeded : Bool
  error : Option String
  deriving DecidableEq, Repr

/-- Python truthiness of a nullable integer: false for None and 0. -/
def truthyOptInt : Option Int → Bool
  | none => false
  | some n => n != 0

/-- JenkinsStatusCheck.run: a 404 from the backend records a failed result
naming the job and returns; any other backend exception records a
succeeded result with a diagnostic note and returns; a disabled job takes
the branch that evaluates a format string with no %s specifier, which
raises; otherwise the blocked-build-time threshold and the reported job
status determine the result. -/
def jenkinsRun (c : JenkinsCheck) (resp : JenkinsResponse) :
    Except String JenkinsRunResult :=
  match resp with
  | JenkinsResponse.httpError => do
    -- Fail if there is a 404 - the job is misconfigured probably
    let msg ← pyFormat "Job %s not found on Jenkins" [c.name]
    pure ⟨false, some msg⟩
  | JenkinsResponse.otherError =>
    -- If something else goes wrong, we will *not* fail
    pure ⟨true, some "Error fetching from Jenkins"⟩
  | JenkinsResponse.ok status =>
    if status.active = false then do
      -- the source applies % to a format string with no specifier here
      let msg ← pyFormat "Job disabled on Jenkins" [c.name]
      pure ⟨false, some msg⟩
    else do
      let base : JenkinsRunResult ←
        if truthyOptInt c.max_queued_build_time
            && truthyOptInt status.blocked_build_time then
          let m := c.max_queued_build_time.getD 0
          let b := status.blocked_build_time.getD 0
          if b > m * 60 then do
            let msg ← pyFormat "Job \x22%s\x22 has blocked build waiting for %ss (> %sm)"
              [c.name, toString b, toString m]
            pure (⟨false, some msg⟩ : JenkinsRunResult)
          else
            pure (⟨status.succeeded, none⟩ : JenkinsRunResult)
        else
          pure (⟨status.succeeded, none⟩ : JenkinsRunResult)
      if status.succeeded = false then do
        match base.error with
        | some e => do
          let extra ← pyFormat "; Job \x22%s\x22 failing on Jenkins" [c.name]
          pure ⟨base.succeeded, some (e ++ extra)⟩
        | none => do
          let msg ← pyFormat "Job \x22%s\x22 failing on Jenkins" [c.name]
          pure ⟨base.succeeded, some msg⟩
      else
        pure base

/-- C5: a job-not-found backend response yields a failed result whose
message names the missing job, any other backend exception yields a result
marked succeeded with a diagnostic note, and neither case raises (both
produce ok results). -/
theorem C5_jenkins_resilience (c : JenkinsCheck) :
    jenkinsRun c JenkinsResponse.httpError =
      Except.ok ⟨false, some ("Job " ++ c.name ++ " not found on Jenkins")⟩
    ∧ jenkinsRun c JenkinsResponse.otherError =
      Except.ok ⟨true, some "Error fetching from Jenkins"⟩ := by
  constructor
  · rfl
  · rfl

/-- C6: when the backend responds normally and reports the job as not
active (disabled), run does not record a failed result: evaluating the
malformed format string raises a TypeError that propagates to the caller,
for every check configuration and reported job state. -/
theorem C6_jenkins_disabled_raises (c : JenkinsCheck) (succ : Bool)
    (bbt : Option Int) :
    jenkinsRun c (JenkinsResponse.ok ⟨false, succ, bbt⟩) =
      Except.error
        "TypeError: not all arguments converted during string formatting" := by
  rfl

/-- Python "%0.1f" formatting, modelled for nonnegative rationals that are
exactly representable with one decimal digit (all values the embedded
checks format): integer part, a dot, and the single decimal digit. -/
def formatFixed1 (q : ℚ) : String :=
  let n := (q.num * 10 / (q.den : Int)).toNat
  toString (n / 10) ++ "." ++ toString (n % 10)

/-- The dictionary returned by parse_metric, as read by
GraphiteStatusCheck.run; numbers are modelled as rationals. -/
structure GraphiteSeries where
  error : Bool
  num_series_with_data : Nat
  min : ℚ
  max : ℚ
  average_value : ℚ
  all_values : List ℚ
  deriving DecidableEq, Repr

/-- The GraphiteStatusCheck configuration fields read by run and
format_error_message; value holds the float parsed from the stored text. -/
structure GraphiteCheck where
  check_type : String
  value : ℚ
  expected_num_hosts : Nat
  deriving DecidableEq, Repr

/-- The StatusCheckResult fields written by GraphiteStatusCheck.run. -/
structure GraphiteResult where
  succeeded : Bool
  error : Option String
  average_value : Option ℚ
  actual_hosts : Nat
  failure_value : Option ℚ
  deriving DecidableEq, Repr

/-- GraphiteStatusCheck.format_error_message: "Failed to get metric from
Graphite" when there is no failure value, else the failure value, the
operator and the threshold each formatted with %0.1f, suffixed with the
hosts fraction when expected_num_hosts is positive. -/
def format_error_message (c : GraphiteCheck) (failure_value : Option ℚ)
    (actual_hosts : Nat) : String :=
  match failure_value with
  | none => "Failed to get metric from Graphite"
  | some fv =>
    let hosts_string :=
      if c.expected_num_hosts > 0 then
        " | " ++ toString actual_hosts ++ "/" ++ toString c.expected_num_hosts
          ++ " hosts"
      else ""
    formatFixed1 fv ++ " " ++ c.check_type ++ " " ++ formatFixed1 c.value
      ++ hosts_string

/-- GraphiteStatusCheck.run: failed starts as True on a query error, else
None; with data the comparison selected by check_type overwrites it (min
for < and <=, max for > and >=, membership of the threshold for ==, any
other operator raising a configuration exception); too few data series
force failure; succeeded is the Python negation of failed (None counts as
passing); a failed result formats the error message. -/
def graphiteRun (c : GraphiteCheck) (series : GraphiteSeries) :
    Except String GraphiteResult :=
  let failed0 : Option Bool := if series.error then some true else none
  let step : Except String (Option Bool × Option ℚ × Option ℚ) :=
    if series.num_series_with_data > 0 then
      let avg := some series.average_value
      if c.check_type = "<" then
        let f := decide (series.min < c.value)
        Except.ok (some f, if f then some series.min else none, avg)
      else if c.check_type = "<=" then
        let f := decide (series.min ≤ c.value)
        Except.ok (some f, if f then some series.min else none, avg)
      else if c.check_type = ">" then
        let f := decide (series.max > c.value)
        Except.ok (some f, if f then some series.max else none, avg)
      else if c.check_type = ">=" then
        let f := decide (series.max ≥ c.value)
        Except.ok (some f, if f then some series.max else none, avg)
      else if c.check_type = "==" then
        let f := decide (c.value ∈ series.all_values)
        Except.ok (some f, if f then some c.value else none, avg)
      else
        Except.error ("Check type " ++ c.check_type ++ " not supported")
    else
      Except.ok (failed0, none, none)
  match step with
  | Except.error e => Except.error e
  | Except.ok (failed1, failure_value, avg) =>
    let failed2 : Option Bool :=
      if series.num_series_with_data < c.expected_num_hosts then some true
      else failed1
    let succeeded : Bool :=
      match failed2 with
      | some b => !b
      | none => true
    let err : Option String :=
      if succeeded = false then
        some (format_error_message c failure_value series.num_series_with_data)
      else none
    Except.ok ⟨succeeded, err, avg, series.num_series_with_data, failure_value⟩

/-- The metric check of the spec's worked example: operator >, threshold
4.0, expected_num_hosts 1. -/
def exampleGraphiteCheck : GraphiteCheck := ⟨">", 4, 1⟩

/-- A backend response for the worked example: no query error, one data
series with maximum 5.0. -/
def exampleGraphiteSeries : GraphiteSeries := ⟨false, 1, 5, 5, 5, [5]⟩

/-- C7 counterexample: on the claimed inputs the run fails as claimed, but
its error text is "5.0 > 4.0 | 1/1 hosts", not exactly "5.0 > 4.0": the
hosts suffix is present because expected_num_hosts = 1 is positive. -/
theorem C7_error_text_counterexample :
    graphiteRun exampleGraphiteCheck exampleGraphiteSeries =
      Except.ok ⟨false, some "5.0 > 4.0 | 1/1 hosts", some 5, 1, some 5⟩
    ∧ ("5.0 > 4.0 | 1/1 hosts" : String) ≠ "5.0 > 4.0" := by
  constructor
  · rfl
  · decide

/-- C7 amended: a metric check run with operator >, threshold 4.0, a
response with no query error, one data series whose maximum is 5.0, and
expected_num_hosts = 1 produces a failed result whose error text is
"5.0 > 4.0 | 1/1 hosts", whatever the series minimum, average and value
set are. -/
theorem C7_error_text (mn av : ℚ) (vals : List ℚ) :
    graphiteRun ⟨">", 4, 1⟩ ⟨false, 1, mn, 5, av, vals⟩ =
      Except.ok ⟨false, some "5.0 > 4.0 | 1/1 hosts", some av, 1, some 5⟩ := by
  have h : format_error_message ⟨">", 4, 1⟩ (some 5) 1 = "5.0 > 4.0 | 1/1 hosts" := by
    rfl
  rw [← h]
  rfl

/-- A StatusCheck as seen by the Service aggregation queries: its active
flag, importance and (already persisted) calculated status. -/
structure StatusCheckM where
  active : Bool
  importance : Importance
  calculated_status : CalcStatus
  deriving DecidableEq, Repr

/-- The Service fields read and written by update_status and alert. -/
structure ServiceState where
  alerts_enabled : Bool
  overall_status : ServiceStatus
  old_overall_status : ServiceStatus
  last_alert_sent : Option Int
  status_checks : List StatusCheckM
  deriving DecidableEq, Repr

/-- Service.active_status_checks: status_checks filtered on active=True. -/
def active_status_checks (s : ServiceState) : List StatusCheckM :=
  s.status_checks.filter (·.active)

/-- Service.all_failing_checks: active checks excluding those whose
calculated_status is the calculated passing value. -/
def all_failing_checks (s : ServiceState) : List StatusCheckM :=
  (active_status_checks s).filter (fun c => ¬ c.calculated_status = CalcStatus.passing)

/-- Service.most_severe: critical if any check in the list has critical
importance, else error if any has error, else warning if any has warning,
else passing. -/
def most_severe (check_list : List StatusCheckM) : ServiceStatus :=
  let failures := check_list.map (·.importance)
  if failures.contains Importance.critical then ServiceStatus.critical
  else if failures.contains Importance.error then ServiceStatus.error
  else if failures.contains Importance.warning then ServiceStatus.warning
  else ServiceStatus.passing

/-- The ServiceStatusSnapshot fields written in this cycle. -/
structure Snapshot where
  num_checks_active : Nat
  num_checks_passing : Nat
  num_checks_failing : Nat
  overall_status : ServiceStatus
  time : Int
  did_send_alert : Bool
  deriving DecidableEq, Repr

/-- The observable outcome of update_status / alert: the persisted service
state, the snapshot of this cycle, and whether send_alert was invoked. -/
structure AlertOutcome where
  state : ServiceState
  snapshot : Snapshot
  sent : Bool
  deriving DecidableEq, Repr

/-- True when the early-return throttle test fires:
last_alert_sent is non-null and now - window < last_alert_sent
(the code writes (timezone.now() - timedelta(...)) < self.last_alert_sent). -/
def throttleHit (last : Option Int) (now window : Int) : Bool :=
  match last with
  | some t => decide (now - window < t)
  | none => false

/-- Service.alert: no-op when alerts are disabled; for a non-passing status
an early return when the severity-keyed throttle fires (120 minutes for
warning, 10 minutes for error and critical), else last_alert_sent := now;
for a passing status last_alert_sent := None; every non-suppressed path
saves, marks the snapshot did_send_alert and calls send_alert. -/
def alert (s : ServiceState) (snap : Snapshot) (now : Int) : AlertOutcome :=
  if s.alerts_enabled = false then ⟨s, snap, false⟩
  else
    if s.overall_status ≠ ServiceStatus.passing then
      if s.overall_status = ServiceStatus.warning
          ∧ throttleHit s.last_alert_sent now (120 * 60) then
        ⟨s, snap, false⟩
      else if (s.overall_status = ServiceStatus.critical
            ∨ s.overall_status = ServiceStatus.error)
          ∧ throttleHit s.last_alert_sent now (10 * 60) then
        ⟨s, snap, false⟩
      else
        ⟨{ s with last_alert_sent := some now },
         { snap with did_send_alert := true }, true⟩
    else
      -- We don't count "back to normal" as an alert
      ⟨{ s with last_alert_sent := none },
       { snap with did_send_alert := true }, true⟩

/-- Service.update_status: records the old status, recomputes
overall_status as most_severe of the failing active checks, writes a
snapshot with the check counts, saves, and calls alert unless both old and
new status are passing. -/
def update_status (s : ServiceState) (now : Int) : AlertOutcome :=
  let old := s.overall_status
  let failedCount := (all_failing_checks s).length
  let newStatus := most_severe (all_failing_checks s)
  let s1 : ServiceState :=
    { s with old_overall_status := old, overall_status := newStatus }
  let snap : Snapshot :=
    ⟨(active_status_checks s).length,
     (active_status_checks s).length - failedCount,
     failedCount, newStatus, now, false⟩
  if newStatus = ServiceStatus.passing ∧ old = ServiceStatus.passing then
    ⟨s1, snap, false⟩
  else
    alert s1 snap now

/-- Rank of a status in the fixed severity order
CRITICAL > ERROR > WARNING > PASSING. -/
def statusRank : ServiceStatus → Nat
  | .passing => 0
  | .warning => 1
  | .error => 2
  | .critical => 3

/-- alert never changes overall_status. -/
theorem alert_overall (s : ServiceState) (snap : Snapshot) (now : Int) :
    (alert s snap now).state.overall_status = s.overall_status := by
  unfold alert
  split
  · rfl
  · split
    · split
      · rfl
      · split
        · rfl
        · rfl
    · rfl

/-- most_severe computes the maximum importance rank of the list. -/
theorem most_severe_rank (l : List StatusCheckM) :
    statusRank (most_severe l) =
      (l.map (fun c => statusRank (importanceStatus c.importance))).foldr max 0 := by
  induction l with
  | nil => rfl
  | cons c t ih =>
    rw [List.map_cons, List.foldr_cons, ← ih]
    unfold most_severe
    simp only [List.map_cons, List.contains_cons]
    cases hc : c.importance <;>
      rcases h1 : (t.map (·.importance)).contains Importance.critical <;>
      rcases h2 : (t.map (·.importance)).contains Importance.error <;>
      rcases h3 : (t.map (·.importance)).contains Importance.warning <;>
      simp [h1, h2, h3, importanceStatus, statusRank] <;> decide

/-- C4: for every service state, update_status sets the overall status to
the most severe importance among the failing active checks: its rank equals
the maximum, in the order CRITICAL > ERROR > WARNING > PASSING, of the
importance ranks of the failing active checks (0, i.e. PASSING, when there
are none). -/
theorem C4_severity_aggregation (s : ServiceState) (now : Int) :
    (update_status s now).state.overall_status = most_severe (all_failing_checks s)
    ∧ statusRank ((update_status s now).state.overall_status) =
        ((all_failing_checks s).map
          (fun c => statusRank (importanceStatus c.importance))).foldr max 0 := by
  have hov : (update_status s now).state.overall_status
      = most_severe (all_failing_checks s) := by
    unfold update_status
    dsimp only
    split
    · rfl
    · rw [alert_overall]
  exact ⟨hov, by rw [hov, most_severe_rank]⟩

/-- The throttle window, in seconds, used by alert for a non-passing
status: 120 minutes for warning, 10 minutes for error and critical. -/
def cooldownSeconds (st : ServiceStatus) : Int :=
  if st = ServiceStatus.warning then 120 * 60 else 10 * 60

/-- Computation of alert for an enabled service with warning status and a
previous alert timestamp. -/
theorem alert_warning_some (old : ServiceStatus) (checks : List StatusCheckM)
    (snap : Snapshot) (now t : Int) :
    alert ⟨true, ServiceStatus.warning, old, some t, checks⟩ snap now =
      if now - 7200 < t then
        ⟨⟨true, ServiceStatus.warning, old, some t, checks⟩, snap, false⟩
      else
        ⟨⟨true, ServiceStatus.warning, old, some now, checks⟩,
         { snap with did_send_alert := true }, true⟩ := by
  by_cases hc : now - 7200 < t <;> simp [alert, throttleHit, hc]

/-- Computation of alert for an enabled service with error status and a
previous alert timestamp. -/
theorem alert_error_some (old : ServiceStatus) (checks : List StatusCheckM)
    (snap : Snapshot) (now t : Int) :
    alert ⟨true, ServiceStatus.error, old, some t, checks⟩ snap now =
      if now - 600 < t then
        ⟨⟨true, ServiceStatus.error, old, some t, checks⟩, snap, false⟩
      else
        ⟨⟨true, ServiceStatus.error, old, some now, checks⟩,
         { snap with did_send_alert := true }, true⟩ := by
  by_cases hc : now - 600 < t <;> simp [alert, throttleHit, hc]

/-- Computation of alert for an enabled service with critical status and a
previous alert timestamp. -/
theorem alert_critical_some (old : ServiceStatus) (checks : List StatusCheckM)
    (snap : Snapshot) (now t : Int) :
    alert ⟨true, ServiceStatus.critical, old, some t, checks⟩ snap now =
      if now - 600 < t then
        ⟨⟨true, ServiceStatus.critical, old, some t, checks⟩, snap, false⟩
      else
        ⟨⟨true, ServiceStatus.critical, old, some now, checks⟩,
         { snap with did_send_alert := true }, true⟩ := by
  by_cases hc : now - 600 < t <;> simp [alert, throttleHit, hc]

/-- Computation of alert for an enabled non-passing service with no
previous alert timestamp: never suppressed. -/
theorem alert_nonpassing_none (st old : ServiceStatus) (checks : List StatusCheckM)
    (snap : Snapshot) (now : Int) (hnp : st ≠ ServiceStatus.passing) :
    alert ⟨true, st, old, none, checks⟩ snap now =
      ⟨⟨true, st, old, some now, checks⟩,
       { snap with did_send_alert := true }, true⟩ := by
  cases st with
  | passing => exact absurd rfl hnp
  | warning => simp [alert, throttleHit]
  | error => simp [alert, throttleHit]
  | critical => simp [alert, throttleHit]

/-- C3: with alerting enabled and a non-passing status, alert is suppressed
(state, snapshot and dispatch all untouched) exactly when a prior alert
timestamp lies within the severity-keyed cooldown window before now; when
no such timestamp exists, last_alert_sent is set to now, the snapshot is
marked and a notification is dispatched. -/
theorem C3_alert_throttle (s : ServiceState) (snap : Snapshot) (now : Int)
    (hen : s.alerts_enabled = true)
    (hnp : s.overall_status ≠ ServiceStatus.passing) :
    (alert s snap now = ⟨s, snap, false⟩ ↔
      ∃ t, s.last_alert_sent = some t ∧ now - t < cooldownSeconds s.overall_status)
    ∧ ((∀ t, s.last_alert_sent = some t → cooldownSeconds s.overall_status ≤ now - t) →
        alert s snap now =
          ⟨{ s with last_alert_sent := some now },
           { snap with did_send_alert := true }, true⟩) := by
  obtain ⟨en, ov, old, last, checks⟩ := s
  simp only at hen hnp
  subst hen
  rcases last with _ | t
  · rw [alert_nonpassing_none ov old checks snap now hnp]
    refine ⟨⟨fun h => absurd (congrArg AlertOutcome.sent h) (by simp),
             fun h => ?_⟩, fun h => rfl⟩
    · rcases h with ⟨u, hu, _⟩
      cases hu
  · cases ov with
    | passing => exact absurd rfl hnp
    | warning =>
      rw [alert_warning_some]
      dsimp only
      rw [show cooldownSeconds ServiceStatus.warning = 7200 from by simp [cooldownSeconds]]
      by_cases hc : now - 7200 < t
      · rw [if_pos hc]
        refine ⟨⟨fun h => ⟨t, rfl, by omega⟩, fun h => rfl⟩, fun h => ?_⟩
        have := h t rfl
        omega
      · rw [if_neg hc]
        refine ⟨⟨fun h => absurd (congrArg AlertOutcome.sent h) (by simp),
                 fun h => ?_⟩, fun h => rfl⟩
        rcases h with ⟨u, hu, hlt⟩
        simp only [Option.some.injEq] at hu
        subst hu
        omega
    | error =>
      rw [alert_error_some]
      dsimp only
      rw [show cooldownSeconds ServiceStatus.error = 600 from by simp [cooldownSeconds]]
      by_cases hc : now - 600 < t
      · rw [if_pos hc]
        refine ⟨⟨fun h => ⟨t, rfl, by omega⟩, fun h => rfl⟩, fun h => ?_⟩
        have := h t rfl
        omega
      · rw [if_neg hc]
        refine ⟨⟨fun h => absurd (congrArg AlertOutcome.sent h) (by simp),
                 fun h => ?_⟩, fun h => rfl⟩
        rcases h with ⟨u, hu, hlt⟩
        simp only [Option.some.injEq] at hu
        subst hu
        omega
    | critical =>
      rw [alert_critical_some]
      dsimp only
      rw [show cooldownSeconds ServiceStatus.critical = 600 from by simp [cooldownSeconds]]
      by_cases hc : now - 600 < t
      · rw [if_pos hc]
        refine ⟨⟨fun h => ⟨t, rfl, by omega⟩, fun h => rfl⟩, fun h => ?_⟩
        have := h t rfl
        omega
      · rw [if_neg hc]
        refine ⟨⟨fun h => absurd (congrArg AlertOutcome.sent h) (by simp),
                 fun h => ?_⟩, fun h => rfl⟩
        rcases h with ⟨u, hu, hlt⟩
        simp only [Option.some.injEq] at hu
        subst hu
        omega

/-- A concrete service used to exercise the throttle theorems: alerting
enabled, status ERROR, last alert sent at time 0. -/
def svcThrottle : ServiceState :=
  ⟨true, ServiceStatus.error, ServiceStatus.error, some 0, []⟩

/-- A concrete snapshot for the throttle theorems. -/
def snapThrottle : Snapshot :=
  ⟨1, 0, 1, ServiceStatus.error, 0, false⟩

/-- C3 witness: with last_alert_sent = 0 and status ERROR, evaluation at
540 s (9 min) is fully suppressed, and evaluation at 660 s (11 min) sets
last_alert_sent to 660, marks the snapshot and dispatches. -/
theorem C3_alert_throttle_witness :
    (alert svcThrottle snapThrottle 540 = ⟨svcThrottle, snapThrottle, false⟩)
    ∧ (alert svcThrottle snapThrottle 660 =
        ⟨{ svcThrottle with last_alert_sent := some 660 },
         { snapThrottle with did_send_alert := true }, true⟩) := by
  constructor
  · exact (C3_alert_throttle svcThrottle snapThrottle 540 rfl (by decide)).1.mpr
      ⟨0, rfl, by decide⟩
  · exact (C3_alert_throttle svcThrottle snapThrottle 660 rfl (by decide)).2
      (fun t ht => by
        obtain rfl : (0 : Int) = t := Option.some.inj ht
        decide)

/-- A concrete service in status ERROR whose failing checks have all
recovered: one active passing check, one inactive failing check. -/
def svcRecovered : ServiceState :=
  ⟨true, ServiceStatus.error, ServiceStatus.error, some 50,
   [⟨true, Importance.critical, CalcStatus.passing⟩,
    ⟨false, Importance.error, CalcStatus.failing⟩]⟩

/-- C1 counterexample: on a concrete recovery (ERROR to PASSING, alerting
enabled) the cycle does dispatch a notification and does mark the snapshot
as having sent an alert, while clearing last_alert_sent; the claim that no
send is triggered and the snapshot stays unmarked is false here. -/
theorem C1_recovery_counterexample :
    (update_status svcRecovered 100).sent = true
    ∧ (update_status svcRecovered 100).snapshot.did_send_alert = true
    ∧ (update_status svcRecovered 100).state.last_alert_sent = none
    ∧ (update_status svcRecovered 100).state.overall_status = ServiceStatus.passing
    ∧ svcRecovered.overall_status ≠ ServiceStatus.passing := by
  decide

/-- C1 amended: when alerting is enabled, no active check is failing and
the previous overall status was not PASSING, the cycle moves the service to
PASSING and clears last_alert_sent (the recovery is not counted against the
throttle), but it does dispatch a back-to-normal notification and marks the
snapshot as having sent an alert. -/
theorem C1_recovery_resets_throttle (s : ServiceState) (now : Int)
    (hen : s.alerts_enabled = true)
    (hfail : all_failing_checks s = [])
    (hold : s.overall_status ≠ ServiceStatus.passing) :
    (update_status s now).state.last_alert_sent = none
    ∧ (update_status s now).state.overall_status = ServiceStatus.passing
    ∧ (update_status s now).snapshot.did_send_alert = true
    ∧ (update_status s now).sent = true := by
  obtain ⟨en, ov, old, last, checks⟩ := s
  simp only at hen hold
  subst hen
  unfold update_status
  dsimp only
  rw [hfail]
  have hmost : most_severe [] = ServiceStatus.passing := rfl
  rw [hmost]
  rw [if_neg (fun hcon => hold hcon.2)]
  simp [alert]

/-- C1 witness: the amended recovery behaviour at the concrete recovered
service and time 100. -/
theorem C1_recovery_resets_throttle_witness :
    svcRecovered.alerts_enabled = true
    ∧ all_failing_checks svcRecovered = []
    ∧ ((update_status svcRecovered 100).state.last_alert_sent = none
        ∧ (update_status svcRecovered 100).state.overall_status = ServiceStatus.passing
        ∧ (update_status svcRecovered 100).snapshot.did_send_alert = true
        ∧ (update_status svcRecovered 100).sent = true) :=
  ⟨by decide, by decide,
   C1_recovery_resets_throttle svcRecovered 100 (by decide) (by decide) (by decide)⟩

/-- The UserProfile fields read and written by UserProfile.save. -/
structure UserProfile where
  id : Nat
  mobile_number : String
  fallback_alert_user : Bool
  deriving DecidableEq, Repr

/-- The model-save primitive underlying super(UserProfile, self).save():
update the row with this primary key if it exists, else insert. -/
def upsertProfile : List UserProfile → UserProfile → List UserProfile
  | [], p => [p]
  | q :: rest, p =>
    if q.id = p.id then p :: rest else q :: upsertProfile rest p

/-- The mobile-number normalisation at the top of UserProfile.save. -/
def stripPlus (p : UserProfile) : UserProfile :=
  if p.mobile_number.startsWith "+" then
    { p with mobile_number := p.mobile_number.drop 1 }
  else p

/-- The bulk update UserProfile.objects.exclude(id=self.id)
.update(fallback_alert_user=False). -/
def clearOthers (i : Nat) (db : List UserProfile) : List UserProfile :=
  db.map (fun q =>
    if q.id ≠ i then { q with fallback_alert_user := false } else q)

/-- UserProfile.save: strip a leading + from the mobile number, and when
fallback_alert_user is set clear the flag on every profile with a
different id before writing this row. -/
def profileSave (p : UserProfile) (db : List UserProfile) : List UserProfile :=
  let p1 := stripPlus p
  let db1 := if p1.fallback_alert_user then clearOthers p1.id db else db
  upsertProfile db1 p1

/-- Number of profiles carrying the fallback flag. -/
def fallbackCount (db : List UserProfile) : Nat :=
  (db.filter (·.fallback_alert_user)).length

/-- stripPlus changes neither the id nor the fallback flag. -/
theorem stripPlus_id_flag (p : UserProfile) :
    (stripPlus p).id = p.id ∧
    (stripPlus p).fallback_alert_user = p.fallback_alert_user := by
  unfold stripPlus
  split <;> exact ⟨rfl, rfl⟩

/-- clearOthers keeps the id column unchanged. -/
theorem clearOthers_ids (i : Nat) (db : List UserProfile) :
    (clearOthers i db).map (·.id) = db.map (·.id) := by
  induction db with
  | nil => rfl
  | cons r rest ih =>
    unfold clearOthers at ih ⊢
    simp only [List.map_cons, ih]
    by_cases h : r.id = i <;> simp [h]

/-- After clearOthers, a flagged row can only be the excluded id. -/
theorem clearOthers_flagged (i : Nat) (db : List UserProfile) (q : UserProfile)
    (hq : q ∈ clearOthers i db) (hf : q.fallback_alert_user = true) :
    q.id = i := by
  rcases List.mem_map.mp hq with ⟨q0, hq0, hqeq⟩
  by_cases h : q0.id = i
  · rw [← hqeq, if_neg (by simpa using h)]
    exact h
  · rw [← hqeq, if_pos (by simpa using h)] at hf
    simp at hf

/-- Every row of an upsert result is the written row or an old row. -/
theorem mem_upsertProfile (db : List UserProfile) (p q : UserProfile)
    (h : q ∈ upsertProfile db p) : q = p ∨ q ∈ db := by
  induction db with
  | nil =>
    simp [upsertProfile] at h
    exact Or.inl h
  | cons r rest ih =>
    unfold upsertProfile at h
    by_cases hid : r.id = p.id
    · rw [if_pos hid] at h
      rcases List.mem_cons.mp h with h1 | h1
      · exact Or.inl h1
      · exact Or.inr (List.mem_cons_of_mem r h1)
    · rw [if_neg hid] at h
      rcases List.mem_cons.mp h with h1 | h1
      · exact Or.inr (h1 ▸ List.mem_cons_self r rest)
      · rcases ih h1 with h2 | h2
        · exact Or.inl h2
        · exact Or.inr (List.mem_cons_of_mem r h2)

/-- Ids of an upsert result come from the old rows or the written row. -/
theorem mem_ids_upsertProfile (db : List UserProfile) (p : UserProfile) (x : Nat)
    (h : x ∈ (upsertProfile db p).map (·.id)) :
    x ∈ db.map (·.id) ∨ x = p.id := by
  rcases List.mem_map.mp h with ⟨q, hq, hx⟩
  rcases mem_upsertProfile db p q hq with h1 | h1
  · exact Or.inr (by rw [← hx, h1])
  · exact Or.inl (List.mem_map.mpr ⟨q, h1, hx⟩)

/-- Upserting preserves distinctness of profile ids. -/
theorem upsertProfile_nodup (db : List UserProfile) (p : UserProfile)
    (h : (db.map (·.id)).Nodup) : ((upsertProfile db p).map (·.id)).Nodup := by
  induction db with
  | nil => simp [upsertProfile]
  | cons r rest ih =>
    simp only [List.map_cons, List.nodup_cons] at h
    unfold upsertProfile
    by_cases hid : r.id = p.id
    · rw [if_pos hid]
      simp only [List.map_cons, List.nodup_cons]
      exact ⟨by rw [← hid]; exact h.1, h.2⟩
    · rw [if_neg hid]
      simp only [List.map_cons, List.nodup_cons]
      refine ⟨fun hmem => ?_, ih h.2⟩
      rcases mem_ids_upsertProfile rest p r.id hmem with h1 | h1
      · exact h.1 h1
      · exact hid h1

/-- Splitting the flagged count over a cons cell. -/
theorem fallbackCount_cons (q : UserProfile) (rest : List UserProfile) :
    fallbackCount (q :: rest) =
      (if q.fallback_alert_user then 1 else 0) + fallbackCount rest := by
  unfold fallbackCount
  rw [List.filter_cons]
  cases hq : q.fallback_alert_user <;> simp [Nat.add_comm]

/-- When every flagged row of the table shares the written row's id and
ids are distinct, the upsert result has at most one flagged row. -/
theorem fallbackCount_upsert_all (db : List UserProfile) (p : UserProfile)
    (hall : ∀ q ∈ db, q.fallback_alert_user = true → q.id = p.id)
    (hnd : (db.map (·.id)).Nodup) :
    fallbackCount (upsertProfile db p) ≤ 1 := by
  induction db with
  | nil =>
    unfold upsertProfile
    rw [fallbackCount_cons]
    cases hp : p.fallback_alert_user <;> simp [fallbackCount]
  | cons r rest ih =>
    simp only [List.map_cons, List.nodup_cons] at hnd
    unfold upsertProfile
    by_cases hid : r.id = p.id
    · rw [if_pos hid]
      have hrest : ∀ q ∈ rest, q.fallback_alert_user = false := by
        intro q hq
        cases hqf : q.fallback_alert_user
        · rfl
        · have hqp := hall q (List.mem_cons_of_mem r hq) hqf
          exact absurd
            (List.mem_map.mpr ⟨q, hq, hqp.trans hid.symm⟩) hnd.1
      have hzero : fallbackCount rest = 0 := by
        unfold fallbackCount
        rw [List.length_eq_zero]
        exact List.filter_eq_nil_iff.mpr (fun q hq => by simp [hrest q hq])
      rw [fallbackCount_cons, hzero]
      split <;> simp
    · rw [if_neg hid]
      have hr : r.fallback_alert_user = false := by
        cases hrf : r.fallback_alert_user
        · rfl
        · exact absurd (hall r (List.mem_cons_self r rest) hrf) hid
      have hrec := ih (fun q hq => hall q (List.mem_cons_of_mem r hq)) hnd.2
      rw [fallbackCount_cons, hr]
      simpa using hrec

/-- Upserting an unflagged row never increases the flagged count. -/
theorem fallbackCount_upsert_false (db : List UserProfile) (p : UserProfile)
    (hp : p.fallback_alert_user = false) :
    fallbackCount (upsertProfile db p) ≤ fallbackCount db := by
  induction db with
  | nil => simp [upsertProfile, fallbackCount, hp]
  | cons r rest ih =>
    unfold upsertProfile
    by_cases hid : r.id = p.id
    · rw [if_pos hid, fallbackCount_cons, fallbackCount_cons, hp]
      cases hrf : r.fallback_alert_user <;> simp
    · rw [if_neg hid, fallbackCount_cons, fallbackCount_cons]
      omega

/-- One save preserves distinctness of ids. -/
theorem profileSave_nodup (p : UserProfile) (db : List UserProfile)
    (hnd : (db.map (·.id)).Nodup) :
    ((profileSave p db).map (·.id)).Nodup := by
  unfold profileSave
  dsimp only
  apply upsertProfile_nodup
  by_cases hf : (stripPlus p).fallback_alert_user = true
  · rw [if_pos hf, clearOthers_ids]
    exact hnd
  · rw [if_neg hf]
    exact hnd

/-- One save preserves the at-most-one-fallback invariant. -/
theorem profileSave_atMostOne (p : UserProfile) (db : List UserProfile)
    (hnd : (db.map (·.id)).Nodup) (hone : fallbackCount db ≤ 1) :
    fallbackCount (profileSave p db) ≤ 1 := by
  unfold profileSave
  dsimp only
  by_cases hf : (stripPlus p).fallback_alert_user = true
  · rw [if_pos hf]
    apply fallbackCount_upsert_all
    · intro q hq hqf
      exact clearOthers_flagged (stripPlus p).id db q hq hqf
    · rw [clearOthers_ids]
      exact hnd
  · rw [if_neg hf]
    refine Nat.le_trans (fallbackCount_upsert_false db (stripPlus p) ?_) hone
    cases hsf : (stripPlus p).fallback_alert_user
    · rfl
    · exact absurd hsf hf

/-- C9: starting from a table with distinct ids and at most one fallback
profile, any sequence of saves leaves at most one fallback profile, and a
save whose row carries the flag clears the flag on every row with a
different id. -/
theorem C9_fallback_uniqueness (db : List UserProfile)
    (hnd : (db.map (·.id)).Nodup) (hone : fallbackCount db ≤ 1) :
    (∀ ps : List UserProfile,
      fallbackCount (ps.foldl (fun d q => profileSave q d) db) ≤ 1)
    ∧ (∀ p, p.fallback_alert_user = true →
        ∀ q ∈ profileSave p db, q.id ≠ p.id → q.fallback_alert_user = false) := by
  constructor
  · intro ps
    induction ps generalizing db with
    | nil => exact hone
    | cons p rest ih =>
      exact ih (profileSave p db) (profileSave_nodup p db hnd)
        (profileSave_atMostOne p db hnd hone)
  · intro p hp q hq hqid
    unfold profileSave at hq
    dsimp only at hq
    have hsf : (stripPlus p).fallback_alert_user = true := by
      rw [(stripPlus_id_flag p).2]
      exact hp
    rw [if_pos hsf] at hq
    rcases mem_upsertProfile _ (stripPlus p) q hq with h1 | h1
    · exact absurd (by rw [h1, (stripPlus_id_flag p).1]) hqid
    · cases hqf : q.fallback_alert_user
      · rfl
      · have := clearOthers_flagged (stripPlus p).id db q h1 hqf
        rw [(stripPlus_id_flag p).1] at this
        exact absurd this hqid

/-- C9 witness: saving a second flagged profile over a table holding one
flagged profile leaves a single flagged row and clears the other row. -/
theorem C9_fallback_uniqueness_witness :
    fallbackCount
      ([(⟨2, "", true⟩ : UserProfile)].foldl (fun d q => profileSave q d)
        [⟨1, "", true⟩, ⟨2, "", false⟩]) ≤ 1
    ∧ ∀ q ∈ profileSave ⟨2, "", true⟩ [⟨1, "", true⟩, ⟨2, "", false⟩],
        q.id ≠ 2 → q.fallback_alert_user = false :=
  ⟨(C9_fallback_uniqueness [⟨1, "", true⟩, ⟨2, "", false⟩]
      (by decide) (by decide)).1 [⟨2, "", true⟩],
   (C9_fallback_uniqueness [⟨1, "", true⟩, ⟨2, "", false⟩]
      (by decide) (by decide)).2 ⟨2, "", true⟩ rfl⟩

/-- A Shift row; stop models the field called end (a Lean keyword). -/
structure Shift where
  start : Int
  stop : Int
  user : String
  uid : String
  deleted : Bool
  deriving DecidableEq, Repr

/-- One calendar event as produced by get_events. -/
structure CalendarEvent where
  uid : String
  summary : String
  start : Int
  stop : Int
  deriving DecidableEq, Repr

/-- The user_lookup dictionary built from the active usernames in order
(later entries overwrite earlier ones), queried at a key. -/
def userLookup (users : List String) (key : String) : Option String :=
  users.reverse.find? (fun u => u.toLower == key)

/-- The dictionary lookup user_lookup[event's summary.lower().strip()]. -/
def matchedUser (users : List String) (e : CalendarEvent) : Option String :=
  userLookup users (e.summary.toLower.trim)

/-- The bulk update Shift.objects.filter(start__gt=now)
.update(deleted=True). -/
def markFutureDeleted (now : Int) (db : List Shift) : List Shift :=
  db.map (fun s => if now < s.start then { s with deleted := true } else s)

/-- The per-row marking function of markFutureDeleted. -/
def markShift (now : Int) (s : Shift) : Shift :=
  if now < s.start then { s with deleted := true } else s

/-- The shift written for a matched event: the event's interval and the
matched user, with the deleted flag cleared. -/
def newShiftFrom (e : CalendarEvent) (user : String) : Shift :=
  ⟨e.start, e.stop, user, e.uid, false⟩

/-- Get-or-create keyed by uid followed by save: replace the row whose uid
matches, or insert the new row at the end. -/
def upsertShift : List Shift → String → Shift → List Shift
  | [], _, v => [v]
  | s :: rest, u, v =>
    if s.uid = u then v :: rest else s :: upsertShift rest u v

/-- The body of the event loop in update_shifts: skip events whose summary
matches no active username, otherwise upsert the shift for the event. -/
def applyEvent (users : List String) (db : List Shift) (e : CalendarEvent) :
    List Shift :=
  match matchedUser users e with
  | none => db
  | some usr => upsertShift db e.uid (newShiftFrom e usr)

/-- update_shifts: soft-delete every future shift, then fold the calendar
events through the upsert loop. -/
def update_shifts (now : Int) (users : List String)
    (events : List CalendarEvent) (db : List Shift) : List Shift :=
  events.foldl (applyEvent users) (markFutureDeleted now db)

/-- The last event of the list carrying a given uid whose summary matches a
user, with the matched user; the event loop leaves exactly this event's
data in the shift with that uid. -/
def lastMatch (users : List String) :
    List CalendarEvent → String → Option (CalendarEvent × String)
  | [], _ => none
  | e :: es, u =>
    match lastMatch users es u with
    | some p => some p
    | none =>
      match matchedUser users e with
      | some usr => if e.uid = u then some (e, usr) else none
      | none => none

/-- The net effect of the event loop on a shift already present: overwrite
it from the last matching event with its uid, if any. -/
def overwriteLast (users : List String) (events : List CalendarEvent)
    (s : Shift) : Shift :=
  match lastMatch users events s.uid with
  | some p => ⟨p.1.start, p.1.stop, p.2, s.uid, false⟩
  | none => s

/-- The shifts appended by the event loop for matched events whose uid is
not among the given uids, each already overwritten by the later events of
the list. -/
def newTail (users : List String) :
    List CalendarEvent → List String → List Shift
  | [], _ => []
  | e :: es, us =>
    match matchedUser users e with
    | some usr =>
      if e.uid ∈ us then newTail users es us
      else overwriteLast users es (newShiftFrom e usr) :: newTail users es (e.uid :: us)
    | none => newTail users es us

/-- Unfolding lemma for lastMatch on a cons cell. -/
theorem lastMatch_cons (users : List String) (e : CalendarEvent)
    (es : List CalendarEvent) (u : String) :
    lastMatch users (e :: es) u =
      match lastMatch users es u with
      | some p => some p
      | none =>
        match matchedUser users e with
        | some usr => if e.uid = u then some (e, usr) else none
        | none => none := rfl

/-- A head event with a different uid does not change lastMatch. -/
theorem lastMatch_cons_ne (users : List String) (e : CalendarEvent)
    (es : List CalendarEvent) (u : String) (h : e.uid ≠ u) :
    lastMatch users (e :: es) u = lastMatch users es u := by
  rw [lastMatch_cons]
  cases hm : lastMatch users es u
  · cases hmu : matchedUser users e <;> simp [h]
  · rfl

/-- An unmatched head event does not change lastMatch. -/
theorem lastMatch_cons_unmatched (users : List String) (e : CalendarEvent)
    (es : List CalendarEvent) (u : String) (h : matchedUser users e = none) :
    lastMatch users (e :: es) u = lastMatch users es u := by
  rw [lastMatch_cons]
  cases hm : lastMatch users es u
  · rw [h]
  · rfl

/-- overwriteLast never changes the uid. -/
theorem overwriteLast_uid (users : List String) (events : List CalendarEvent)
    (s : Shift) : (overwriteLast users events s).uid = s.uid := by
  unfold overwriteLast
  cases hm : lastMatch users events s.uid
  · rfl
  · rfl

/-- markShift never changes the uid. -/
theorem markShift_uid (now : Int) (s : Shift) : (markShift now s).uid = s.uid := by
  unfold markShift
  split <;> rfl

/-- markShift is idempotent. -/
theorem markShift_idem (now : Int) (s : Shift) :
    markShift now (markShift now s) = markShift now s := by
  unfold markShift
  by_cases h : now < s.start
  · rw [if_pos h]
    rw [if_pos (by simpa using h)]
  · rw [if_neg h, if_neg h]

/-- markFutureDeleted is the elementwise markShift. -/
theorem markFutureDeleted_eq_map (now : Int) (db : List Shift) :
    markFutureDeleted now db = db.map (markShift now) := rfl

/-- marking preserves the uid column. -/
theorem markFutureDeleted_uids (now : Int) (db : List Shift) :
    (markFutureDeleted now db).map (·.uid) = db.map (·.uid) := by
  rw [markFutureDeleted_eq_map, List.map_map]
  exact List.map_congr_left (fun s _ => markShift_uid now s)

/-- overwriteLast on events without this uid in the head is unchanged. -/
theorem overwriteLast_cons_ne (users : List String) (e : CalendarEvent)
    (es : List CalendarEvent) (s : Shift) (h : s.uid ≠ e.uid) :
    overwriteLast users (e :: es) s = overwriteLast users es s := by
  unfold overwriteLast
  rw [lastMatch_cons_ne users e es s.uid (Ne.symm h)]

/-- overwriteLast on an unmatched head event is unchanged. -/
theorem overwriteLast_cons_unmatched (users : List String) (e : CalendarEvent)
    (es : List CalendarEvent) (s : Shift) (h : matchedUser users e = none) :
    overwriteLast users (e :: es) s = overwriteLast users es s := by
  unfold overwriteLast
  rw [lastMatch_cons_unmatched users e es s.uid h]

/-- Upserting a uid that is absent appends the new row. -/
theorem upsertShift_absent (z : List Shift) (u : String) (v : Shift)
    (h : u ∉ z.map (·.uid)) : upsertShift z u v = z ++ [v] := by
  induction z with
  | nil => rfl
  | cons s rest ih =>
    simp only [List.map_cons, List.mem_cons] at h
    push_neg at h
    unfold upsertShift
    rw [if_neg (fun hc => h.1 hc.symm), ih h.2]
    rfl

/-- Upserting a uid that is present keeps the uid column unchanged. -/
theorem upsertShift_uids (z : List Shift) (u : String) (v : Shift)
    (hvu : v.uid = u) (h : u ∈ z.map (·.uid)) :
    (upsertShift z u v).map (·.uid) = z.map (·.uid) := by
  induction z with
  | nil => cases h
  | cons s rest ih =>
    unfold upsertShift
    by_cases hs : s.uid = u
    · rw [if_pos hs]
      simp only [List.map_cons, hvu, hs]
    · rw [if_neg hs]
      simp only [List.map_cons, List.mem_cons] at h
      rcases h with h | h
      · exact absurd h.symm hs
      · simp only [List.map_cons, ih h]

/-- Replacement: with distinct uids and the written uid present, mapping
the remaining events' overwrite over the upsert result equals mapping all
events' overwrite over the original rows. -/
theorem map_overwrite_upsert (users : List String) (e : CalendarEvent)
    (es : List CalendarEvent) (usr : String)
    (hm : matchedUser users e = some usr) :
    ∀ z : List Shift, (z.map (·.uid)).Nodup → e.uid ∈ z.map (·.uid) →
      (upsertShift z e.uid (newShiftFrom e usr)).map (overwriteLast users es)
        = z.map (overwriteLast users (e :: es)) := by
  intro z
  induction z with
  | nil => intro _ h; cases h
  | cons s rest ih =>
    intro hnd hin
    simp only [List.map_cons, List.nodup_cons] at hnd
    unfold upsertShift
    by_cases hs : s.uid = e.uid
    · rw [if_pos hs]
      simp only [List.map_cons]
      have htail : rest.map (overwriteLast users es)
          = rest.map (overwriteLast users (e :: es)) := by
        refine List.map_congr_left (fun t ht => ?_)
        have htuid : t.uid ≠ e.uid := by
          intro hc
          exact hnd.1 (by
            rw [hs, ← hc]
            exact List.mem_map.mpr ⟨t, ht, rfl⟩)
        exact (overwriteLast_cons_ne users e es t htuid).symm
      have hhead : overwriteLast users es (newShiftFrom e usr)
          = overwriteLast users (e :: es) s := by
        cases hm2 : lastMatch users es s.uid with
        | none =>
          have hm2e : lastMatch users es e.uid = none := by
            rw [← hs]; exact hm2
          simp [overwriteLast, lastMatch_cons, hm2e, hm, newShiftFrom, hs]
        | some p =>
          have hm2e : lastMatch users es e.uid = some p := by
            rw [← hs]; exact hm2
          simp [overwriteLast, lastMatch_cons, hm2e, hm, newShiftFrom, hs]
      rw [htail, hhead]
    · rw [if_neg hs]
      simp only [List.map_cons]
      have hin2 : e.uid ∈ rest.map (·.uid) := by
        simp only [List.map_cons, List.mem_cons] at hin
        rcases hin with h | h
        · exact absurd h.symm hs
        · exact h
      rw [ih hnd.2 hin2, overwriteLast_cons_ne users e es s hs]

/-- newTail only depends on the uid set up to membership. -/
theorem newTail_congr (users : List String) (es : List CalendarEvent) :
    ∀ us us' : List String, (∀ x, x ∈ us ↔ x ∈ us') →
      newTail users es us = newTail users es us' := by
  induction es with
  | nil => intro us us' h; rfl
  | cons e rest ih =>
    intro us us' h
    unfold newTail
    cases hmu : matchedUser users e
    · exact ih us us' h
    · dsimp only
      by_cases hin : e.uid ∈ us
      · rw [if_pos hin, if_pos ((h e.uid).mp hin)]
        exact ih us us' h
      · rw [if_neg hin, if_neg (fun hc => hin ((h e.uid).mpr hc))]
        rw [ih (e.uid :: us) (e.uid :: us') (fun x => by
          simp only [List.mem_cons]
          exact or_congr Iff.rfl (h x))]

/-- Every appended shift holds the data of the last matching event with
its uid. -/
theorem newTail_elem (users : List String) (es : List CalendarEvent) :
    ∀ us t, t ∈ newTail users es us →
      ∃ p, lastMatch users es t.uid = some p ∧
        t = ⟨p.1.start, p.1.stop, p.2, t.uid, false⟩ := by
  induction es with
  | nil => intro us t h; cases h
  | cons e rest ih =>
    intro us t h
    unfold newTail at h
    cases hmu : matchedUser users e with
    | none =>
      rw [hmu] at h
      rcases ih us t h with ⟨p, hp, ht⟩
      exact ⟨p, by rw [lastMatch_cons_unmatched users e rest t.uid hmu]; exact hp, ht⟩
    | some usr =>
      rw [hmu] at h
      dsimp only at h
      by_cases hin : e.uid ∈ us
      · rw [if_pos hin] at h
        rcases ih us t h with ⟨p, hp, ht⟩
        refine ⟨p, ?_, ht⟩
        rw [lastMatch_cons]
        rw [hp]
      · rw [if_neg hin] at h
        rcases List.mem_cons.mp h with h1 | h1
        · have htuid : t.uid = e.uid := by
            rw [h1, overwriteLast_uid]
            rfl
          cases hm2 : lastMatch users rest e.uid with
          | none =>
            refine ⟨(e, usr), ?_, ?_⟩
            · rw [lastMatch_cons, htuid, hm2, hmu]
              simp
            · rw [h1]
              simp [overwriteLast, newShiftFrom, hm2]
          | some p =>
            refine ⟨p, ?_, ?_⟩
            · rw [lastMatch_cons, htuid, hm2]
            · rw [h1]
              simp [overwriteLast, newShiftFrom, hm2]
        · rcases ih (e.uid :: us) t h1 with ⟨p, hp, ht⟩
          refine ⟨p, ?_, ht⟩
          rw [lastMatch_cons, hp]

/-- Appended shifts have fresh uids, distinct among themselves. -/
theorem newTail_uids (users : List String) (es : List CalendarEvent) :
    ∀ us, (∀ t ∈ newTail users es us, t.uid ∉ us)
      ∧ ((newTail users es us).map (·.uid)).Nodup := by
  induction es with
  | nil => intro us; exact ⟨fun t h => absurd h (List.not_mem_nil t), List.nodup_nil⟩
  | cons e rest ih =>
    intro us
    unfold newTail
    cases hmu : matchedUser users e with
    | none => exact ih us
    | some usr =>
      dsimp only
      by_cases hin : e.uid ∈ us
      · rw [if_pos hin]
        exact ih us
      · rw [if_neg hin]
        have hih := ih (e.uid :: us)
        constructor
        · intro t ht
          rcases List.mem_cons.mp ht with h1 | h1
          · rw [h1, overwriteLast_uid]
            exact hin
          · intro hc
            exact hih.1 t h1 (List.mem_cons_of_mem e.uid hc)
        · simp only [List.map_cons, List.nodup_cons]
          constructor
          · intro hc
            rcases List.mem_map.mp hc with ⟨t, ht, htuid⟩
            have := hih.1 t ht
            rw [htuid, overwriteLast_uid] at this
            exact this (List.mem_cons_self e.uid us)
          · exact hih.2

/-- A matched event's uid is either already known or carried by an
appended shift. -/
theorem newTail_covers (users : List String) (es : List CalendarEvent) :
    ∀ us, ∀ ev ∈ es, (matchedUser users ev).isSome →
      ev.uid ∈ us ∨ ev.uid ∈ (newTail users es us).map (·.uid) := by
  induction es with
  | nil => intro us ev h; cases h
  | cons e rest ih =>
    intro us ev hev hsome
    unfold newTail
    rcases List.mem_cons.mp hev with h1 | h1
    · subst h1
      cases hmu : matchedUser users ev with
      | none => rw [hmu] at hsome; cases hsome
      | some usr =>
        dsimp only
        by_cases hin : ev.uid ∈ us
        · exact Or.inl hin
        · rw [if_neg hin]
          refine Or.inr ?_
          simp only [List.map_cons, List.mem_cons]
          exact Or.inl (overwriteLast_uid users rest (newShiftFrom ev usr)).symm
    · cases hmu : matchedUser users e with
      | none => exact ih us ev h1 hsome
      | some usr =>
        dsimp only
        by_cases hin : e.uid ∈ us
        · rw [if_pos hin]
          exact ih us ev h1 hsome
        · rw [if_neg hin]
          rcases ih (e.uid :: us) ev h1 hsome with h2 | h2
          · rcases List.mem_cons.mp h2 with h3 | h3
            · refine Or.inr ?_
              simp only [List.map_cons, List.mem_cons]
              exact Or.inl (by
                rw [h3, overwriteLast_uid]
                rfl)
            · exact Or.inl h3
          · refine Or.inr ?_
            simp only [List.map_cons, List.mem_cons]
            exact Or.inr h2

/-- No shift is appended when every matched event's uid is known. -/
theorem newTail_nil_of_covered (users : List String) (es : List CalendarEvent) :
    ∀ us, (∀ ev ∈ es, (matchedUser users ev).isSome → ev.uid ∈ us) →
      newTail users es us = [] := by
  induction es with
  | nil => intro us h; rfl
  | cons e rest ih =>
    intro us h
    unfold newTail
    cases hmu : matchedUser users e with
    | none => exact ih us (fun ev hev => h ev (List.mem_cons_of_mem e hev))
    | some usr =>
      dsimp only
      rw [if_pos (h e (List.mem_cons_self e rest) (by rw [hmu]; rfl))]
      exact ih us (fun ev hev => h ev (List.mem_cons_of_mem e hev))

/-- Unfolding lemma for newTail on a cons cell. -/
theorem newTail_cons (users : List String) (e : CalendarEvent)
    (es : List CalendarEvent) (us : List String) :
    newTail users (e :: es) us =
      match matchedUser users e with
      | some usr =>
        if e.uid ∈ us then newTail users es us
        else overwriteLast users es (newShiftFrom e usr)
          :: newTail users es (e.uid :: us)
      | none => newTail users es us := rfl

/-- Characterisation of the event loop: starting from rows with distinct
uids, folding the events overwrites each present row from the last
matching event with its uid and appends the shifts of the fresh matched
uids. -/
theorem foldl_applyEvent_char (users : List String) (events : List CalendarEvent) :
    ∀ z : List Shift, (z.map (·.uid)).Nodup →
      events.foldl (applyEvent users) z
        = z.map (overwriteLast users events)
          ++ newTail users events (z.map (·.uid)) := by
  induction events with
  | nil =>
    intro z hnd
    show z = z.map (overwriteLast users []) ++ newTail users [] (z.map (·.uid))
    have hmap : ∀ w : List Shift, w.map (overwriteLast users []) = w := by
      intro w
      induction w with
      | nil => rfl
      | cons s rest ihz =>
        rw [List.map_cons, ihz]
        rfl
    rw [hmap z, show newTail users [] (z.map (·.uid)) = [] from rfl, List.append_nil]
  | cons e es ih =>
    intro z hnd
    rw [List.foldl_cons]
    cases hmu : matchedUser users e with
    | none =>
      have happ : applyEvent users z e = z := by
        unfold applyEvent
        rw [hmu]
      rw [happ, ih z hnd]
      have hmap : z.map (overwriteLast users es)
          = z.map (overwriteLast users (e :: es)) :=
        List.map_congr_left
          (fun s _ => (overwriteLast_cons_unmatched users e es s hmu).symm)
      have htail : newTail users (e :: es) (z.map (·.uid))
          = newTail users es (z.map (·.uid)) := by
        rw [newTail_cons, hmu]
      rw [hmap, htail]
    | some usr =>
      have happ : applyEvent users z e
          = upsertShift z e.uid (newShiftFrom e usr) := by
        unfold applyEvent
        rw [hmu]
      rw [happ]
      by_cases hin : e.uid ∈ z.map (·.uid)
      · have huids := upsertShift_uids z e.uid (newShiftFrom e usr) rfl hin
        have hnd2 :
            ((upsertShift z e.uid (newShiftFrom e usr)).map (·.uid)).Nodup := by
          rw [huids]
          exact hnd
        rw [ih _ hnd2, huids]
        rw [map_overwrite_upsert users e es usr hmu z hnd hin]
        have htail : newTail users (e :: es) (z.map (·.uid))
            = newTail users es (z.map (·.uid)) := by
          rw [newTail_cons, hmu]
          dsimp only
          rw [if_pos hin]
        rw [htail]
      · rw [upsertShift_absent z e.uid (newShiftFrom e usr) hin]
        have huids : (z ++ [newShiftFrom e usr]).map (·.uid)
            = z.map (·.uid) ++ [e.uid] := by
          rw [List.map_append]
          rfl
        have hnd2 : ((z ++ [newShiftFrom e usr]).map (·.uid)).Nodup := by
          rw [huids, List.nodup_append]
          refine ⟨hnd, List.nodup_singleton e.uid, fun x hx hx2 => ?_⟩
          have : x = e.uid := by simpa using hx2
          exact hin (this ▸ hx)
        rw [ih _ hnd2, huids]
        rw [List.map_append]
        have hmap : z.map (overwriteLast users es)
            = z.map (overwriteLast users (e :: es)) := by
          refine List.map_congr_left (fun s hs => ?_)
          have hne : s.uid ≠ e.uid := fun hc =>
            hin (by
              rw [← hc]
              exact List.mem_map.mpr ⟨s, hs, rfl⟩)
          exact (overwriteLast_cons_ne users e es s hne).symm
        have htail : newTail users es (z.map (·.uid) ++ [e.uid])
            = newTail users es (e.uid :: z.map (·.uid)) :=
          newTail_congr users es _ _ (fun x => by
            simp only [List.mem_append, List.mem_cons, List.mem_singleton,
              List.not_mem_nil, or_false]
            exact Or.comm)
        have hrhs : newTail users (e :: es) (z.map (·.uid))
            = overwriteLast users es (newShiftFrom e usr)
              :: newTail users es (e.uid :: z.map (·.uid)) := by
          rw [newTail_cons, hmu]
          dsimp only
          rw [if_neg hin]
        rw [hmap, htail, hrhs]
        simp [List.append_assoc]

/-- Overwriting is stable under re-marking and re-overwriting. -/
theorem overwriteLast_mark_overwrite (users : List String)
    (events : List CalendarEvent) (now : Int) (s : Shift) :
    overwriteLast users events
        (markShift now (overwriteLast users events (markShift now s)))
      = overwriteLast users events (markShift now s) := by
  cases hm : lastMatch users events s.uid with
  | some p =>
    have h1 : overwriteLast users events (markShift now s)
        = ⟨p.1.start, p.1.stop, p.2, s.uid, false⟩ := by
      unfold overwriteLast
      rw [markShift_uid now s, hm]
    rw [h1]
    unfold overwriteLast
    rw [show (markShift now (⟨p.1.start, p.1.stop, p.2, s.uid, false⟩ : Shift)).uid
        = s.uid from markShift_uid now _, hm]
  | none =>
    have h1 : overwriteLast users events (markShift now s) = markShift now s := by
      unfold overwriteLast
      rw [markShift_uid now s, hm]
    rw [h1, markShift_idem]
    exact h1

/-- Appended shifts are stable under re-marking and re-overwriting. -/
theorem overwriteLast_mark_tail (users : List String)
    (events : List CalendarEvent) (now : Int) (us : List String) :
    ∀ t ∈ newTail users events us,
      overwriteLast users events (markShift now t) = t := by
  intro t htm
  rcases newTail_elem users events us t htm with ⟨p, hp, ht⟩
  unfold overwriteLast
  rw [markShift_uid now t, hp]
  exact ht.symm

/-- C8: running update_shifts twice at the same instant with the same
calendar feed and user set, from any table with distinct shift uids, gives
exactly the same table as running it once: no duplicate shifts and no
changed deleted flags. -/
theorem C8_shift_sync_idempotent (now : Int) (users : List String)
    (events : List CalendarEvent) (db : List Shift)
    (hnd : (db.map (·.uid)).Nodup) :
    update_shifts now users events (update_shifts now users events db)
      = update_shifts now users events db := by
  have hmkuids := markFutureDeleted_uids now db
  have hnd1 : ((markFutureDeleted now db).map (·.uid)).Nodup := by
    rw [hmkuids]
    exact hnd
  have hchar1 : update_shifts now users events db
      = (markFutureDeleted now db).map (overwriteLast users events)
        ++ newTail users events (db.map (·.uid)) := by
    unfold update_shifts
    rw [foldl_applyEvent_char users events _ hnd1, hmkuids]
  have hAuids : ((markFutureDeleted now db).map
      (overwriteLast users events)).map (·.uid) = db.map (·.uid) := by
    rw [markFutureDeleted_eq_map, List.map_map, List.map_map]
    exact List.map_congr_left (fun s _ => by
      show (overwriteLast users events (markShift now s)).uid = s.uid
      rw [overwriteLast_uid, markShift_uid])
  have hTprop := newTail_uids users events (db.map (·.uid))
  have hRuids : (update_shifts now users events db).map (·.uid)
      = db.map (·.uid)
        ++ (newTail users events (db.map (·.uid))).map (·.uid) := by
    rw [hchar1, List.map_append, hAuids]
  have hndR : ((update_shifts now users events db).map (·.uid)).Nodup := by
    rw [hRuids, List.nodup_append]
    refine ⟨hnd, hTprop.2, fun x hx hx2 => ?_⟩
    rcases List.mem_map.mp hx2 with ⟨t, ht, htx⟩
    exact hTprop.1 t ht (htx ▸ hx)
  have hmkuids2 := markFutureDeleted_uids now (update_shifts now users events db)
  have hnd2 : ((markFutureDeleted now
      (update_shifts now users events db)).map (·.uid)).Nodup := by
    rw [hmkuids2]
    exact hndR
  have hchar2 : update_shifts now users events (update_shifts now users events db)
      = (markFutureDeleted now (update_shifts now users events db)).map
          (overwriteLast users events)
        ++ newTail users events
            ((update_shifts now users events db).map (·.uid)) := by
    conv_lhs => rw [update_shifts]
    rw [foldl_applyEvent_char users events _ hnd2, hmkuids2]
  have htail2 : newTail users events
      ((update_shifts now users events db).map (·.uid)) = [] := by
    apply newTail_nil_of_covered
    intro ev hev hsome
    rw [hRuids]
    rcases newTail_covers users events (db.map (·.uid)) ev hev hsome with h | h
    · exact List.mem_append.mpr (Or.inl h)
    · exact List.mem_append.mpr (Or.inr h)
  have hmark_app : markFutureDeleted now (update_shifts now users events db)
      = markFutureDeleted now
          ((markFutureDeleted now db).map (overwriteLast users events))
        ++ markFutureDeleted now (newTail users events (db.map (·.uid))) := by
    rw [hchar1, markFutureDeleted_eq_map, List.map_append,
      ← markFutureDeleted_eq_map, ← markFutureDeleted_eq_map]
  rw [hchar2, htail2, List.append_nil, hmark_app, List.map_append]
  have hA2 : (markFutureDeleted now
      ((markFutureDeleted now db).map (overwriteLast users events))).map
        (overwriteLast users events)
      = (markFutureDeleted now db).map (overwriteLast users events) := by
    rw [markFutureDeleted_eq_map, markFutureDeleted_eq_map, List.map_map,
      List.map_map, List.map_map, List.map_map]
    exact List.map_congr_left (fun s _ => by
      show overwriteLast users events
          (markShift now (overwriteLast users events (markShift now s)))
        = overwriteLast users events (markShift now s)
      exact overwriteLast_mark_overwrite users events now s)
  have hT2 : (markFutureDeleted now
      (newTail users events (db.map (·.uid)))).map (overwriteLast users events)
      = newTail users events (db.map (·.uid)) := by
    rw [markFutureDeleted_eq_map, List.map_map]
    have hfix := overwriteLast_mark_tail users events now (db.map (·.uid))
    calc (newTail users events (db.map (·.uid))).map
          (overwriteLast users events ∘ markShift now)
        = (newTail users events (db.map (·.uid))).map id :=
          List.map_congr_left (fun t ht => hfix t ht)
      _ = newTail users events (db.map (·.uid)) := List.map_id _
  rw [hA2, hT2, ← hchar1]

/-- A concrete shift table with distinct uids: one past shift, one future
shift. -/
def exampleShiftDb : List Shift :=
  [⟨0, 10, "alice", "u1", false⟩, ⟨100, 200, "bob", "u2", false⟩]

/-- A concrete calendar feed: an update for the future shift, a fresh
matched event and an unmatched event. -/
def exampleEvents : List CalendarEvent :=
  [⟨"u2", " Bob ", 150, 250⟩, ⟨"u3", "carol", 300, 400⟩,
   ⟨"u4", "office party", 300, 400⟩]

/-- The active usernames for the example feed. -/
def exampleUsers : List String := ["Bob", "Carol"]

/-- C8 witness: the concrete table has distinct uids and the synchroniser
run twice on it at time 50 equals the single run. -/
theorem C8_shift_sync_idempotent_witness :
    (exampleShiftDb.map (·.uid)).Nodup
    ∧ update_shifts 50 exampleUsers exampleEvents
        (update_shifts 50 exampleUsers exampleEvents exampleShiftDb)
      = update_shifts 50 exampleUsers exampleEvents exampleShiftDb :=
  ⟨by decide,
   C8_shift_sync_idempotent 50 exampleUsers exampleEvents exampleShiftDb
     (by decide)⟩

end Cabot
